import Mathlib

/-!
Verification of the leveldb-repl command shell (src/main.cpp).

The development shallow-embeds the tokenizer (ParseInput, SliceInput), the
command registry (Instruction, InstructionInfo, GetInfo) and the dispatch
logic of the main loop.  Input lines are lists of characters; the scanning
loop of ParseInput is written with an explicit fuel argument (the fuel is
always at least the number of remaining positions, so the recursion is
structural and evaluates by kernel reduction).  The leveldb storage backend
is an external collaborator and is represented by an oracle function giving
the result of each DB open call.
-/

/-- The double-quote character, written 0x22 in the source. -/
def dqChar : Char := Char.ofNat 0x22

/-- The single-quote character, written 0x27 in the source. -/
def sqChar : Char := Char.ofNat 0x27

/-- The space character, written 0x20 in the source. -/
def spChar : Char := Char.ofNat 0x20

/-- The character of the line at index i (the source indexes with
operator square brackets under the loop guard i less than size; out of
range the value is irrelevant and is taken to be NUL). -/
def charAt (input : List Char) (i : Nat) : Char := input.getD i (Char.ofNat 0)

/-- State of the ParseInput scan: the tokens pushed so far (result), the
start of the current word (pos), and the flags and bookkeeping variables of
the C++ loop.  In the source, current and quote_start are uninitialized
locals that are always written before they are read; the embedding gives
them arbitrary initial values. -/
structure ParseState where
  result : List (List Char)
  pos : Nat
  skipping : Bool
  erease_quotes : Bool
  current : Char
  quote_start : Nat
deriving DecidableEq

/-- SliceInput from the source: substring of the word span from start to
stop, dropping the first and the last character of the span when
erease_quotes is set.  In the source the slice is substr(start, length)
with length = stop - start, and start++ and length -= 2 when quotes are to
be erased; the call sites only set erease_quotes when the span contains a
complete quoted pair, so stop - start is at least 2 and the size_t
subtraction agrees with Nat subtraction. -/
def SliceInput (input : List Char) (start stop : Nat) (erease_quotes : Bool) : List Char :=
  if erease_quotes then (input.drop (start + 1)).take (stop - start - 2)
  else (input.drop start).take (stop - start)

/-- One iteration of the ParseInput for-loop body at index i.  Mirrors the
source exactly: a quote character toggles or continues the quoted run, an
unquoted space finalizes the pending token span, everything else is
skipped. -/
def ParseStep (input : List Char) (i : Nat) (st : ParseState) : ParseState :=
  if charAt input i = dqChar ∨ charAt input i = sqChar then
    if st.skipping then
      if st.current ≠ charAt input i then st
      else { st with erease_quotes := true, skipping := false }
    else { st with quote_start := i, current := charAt input i, skipping := true }
  else if ¬ (charAt input i = spChar) ∨ st.skipping then st
  else
    { st with
        result := st.result ++ [SliceInput input st.pos i st.erease_quotes]
        pos := i + 1
        erease_quotes := false }

/-- The ParseInput for-loop: iterate ParseStep from index i while i is in
range, with enough fuel for the remaining positions. -/
def ParseLoop (input : List Char) : Nat → Nat → ParseState → ParseState
  | 0, _, st => st
  | fuel + 1, i, st =>
    if i < input.length then ParseLoop input fuel (i + 1) (ParseStep input i st) else st

/-- Initial scan state: result empty, pos zero, both flags false
(value-initialized in the source); current and quote_start arbitrary. -/
def initState : ParseState :=
  { result := [], pos := 0, skipping := false, erease_quotes := false,
    current := Char.ofNat 0, quote_start := 0 }

/-- Observable result of ParseInput: either the token list, or the
unterminated-quote diagnostic carrying the 0-based column passed to
PrintSyntaxError (the source prints the caret diagnostic and returns
nullopt). -/
inductive ParseResult where
  | ok : List (List Char) → ParseResult
  | unterminatedQuote : Nat → ParseResult
deriving DecidableEq

/-- ParseInput from the source: run the scan over the whole line; if it
ends inside a quoted run report the unterminated quote at quote_start,
otherwise append the trailing token and return the token list. -/
def ParseInput (input : List Char) : ParseResult :=
  let fin := ParseLoop input input.length 0 initState
  if fin.skipping then ParseResult.unterminatedQuote fin.quote_start
  else ParseResult.ok
    (fin.result ++ [SliceInput input fin.pos input.length fin.erease_quotes])

/-- Projection of the scan that tracks only the quoted-run bookkeeping
(skipping, current, quote_start).  Used to state when a line has balanced
quotes and where an unmatched quote was opened. -/
def QuoteScan (input : List Char) : Nat → Nat → Bool → Char → Nat → Bool × Char × Nat
  | 0, _, skipping, current, qs => (skipping, current, qs)
  | fuel + 1, i, skipping, current, qs =>
    if i < input.length then
      if charAt input i = dqChar ∨ charAt input i = sqChar then
        if skipping then
          if current ≠ charAt input i then
            QuoteScan input fuel (i + 1) skipping current qs
          else QuoteScan input fuel (i + 1) false current qs
        else QuoteScan input fuel (i + 1) true (charAt input i) i
      else QuoteScan input fuel (i + 1) skipping current qs
    else (skipping, current, qs)

/-- The 0-based column of the most recently opened, never closed quote of
the line, when the scan ends inside a quoted run; none when the quotes of
the line are balanced. -/
def UnterminatedQuoteCol (input : List Char) : Option Nat :=
  if (QuoteScan input input.length 0 false (Char.ofNat 0) 0).1 then
    some (QuoteScan input input.length 0 false (Char.ofNat 0) 0).2.2
  else none

/-- First word boundary of the scan from index i: the index of the first
unquoted space (or the line length if there is none), together with the
value of the erease_quotes flag at that point. -/
def FirstBoundary (input : List Char) : Nat → Nat → Bool → Bool → Char → Nat × Bool
  | 0, _, _, erease, _ => (input.length, erease)
  | fuel + 1, i, skipping, erease, current =>
    if i < input.length then
      if charAt input i = dqChar ∨ charAt input i = sqChar then
        if skipping then
          if current ≠ charAt input i then
            FirstBoundary input fuel (i + 1) skipping erease current
          else FirstBoundary input fuel (i + 1) false true current
        else FirstBoundary input fuel (i + 1) true erease (charAt input i)
      else if ¬ (charAt input i = spChar) ∨ skipping then
        FirstBoundary input fuel (i + 1) skipping erease current
      else (i, erease)
    else (input.length, erease)

/-- The seven commands of the shell (enum Instruction in the source). -/
inductive Instruction where
  | help : Instruction
  | exit : Instruction
  | «open» : Instruction
  | close : Instruction
  | read : Instruction
  | write : Instruction
  | dump : Instruction
deriving DecidableEq

/-- The Arguments record of InstructionInfo: the human-readable argument
hint (data) and the expected argument count (size). -/
structure Arguments where
  data : List Char
  size : Nat
deriving DecidableEq

/-- Static metadata of a command: description, argument record, and
whether an open database is required before dispatch. -/
structure InstructionInfo where
  description : String
  args : Arguments
  require_db : Bool
deriving DecidableEq

/-- GetInfo from the source: the static metadata table. -/
def GetInfo : Instruction → InstructionInfo
  | Instruction.help =>
    { description := "Print this help message", args := { data := [], size := 0 },
      require_db := false }
  | Instruction.exit =>
    { description := "Exit the repl", args := { data := [], size := 0 }, require_db := false }
  | Instruction.«open» =>
    { description := "Open database", args := { data := ['p', 'a', 't', 'h'], size := 1 },
      require_db := false }
  | Instruction.close =>
    { description := "Close database", args := { data := [], size := 0 }, require_db := true }
  | Instruction.read =>
    { description := "Read value from database",
      args := { data := ['k', 'e', 'y'], size := 1 }, require_db := true }
  | Instruction.write =>
    { description := "Write value to database",
      args := { data := ['k', 'e', 'y', spChar, 'v', 'a', 'l', 'u', 'e'], size := 2 },
      require_db := true }
  | Instruction.dump =>
    { description := "Dump whole database", args := { data := [], size := 0 },
      require_db := true }

/-- The literal lowercase name of each command (enchantum::to_string). -/
def instructionName : Instruction → List Char
  | Instruction.help => ['h', 'e', 'l', 'p']
  | Instruction.exit => ['e', 'x', 'i', 't']
  | Instruction.«open» => ['o', 'p', 'e', 'n']
  | Instruction.close => ['c', 'l', 'o', 's', 'e']
  | Instruction.read => ['r', 'e', 'a', 'd']
  | Instruction.write => ['w', 'r', 'i', 't', 'e']
  | Instruction.dump => ['d', 'u', 'm', 'p']

/-- enchantum::cast of the first token: case-sensitive exact match against
the command names, none when no name matches. -/
def castInstruction (s : List Char) : Option Instruction :=
  if s = instructionName Instruction.help then some Instruction.help
  else if s = instructionName Instruction.exit then some Instruction.exit
  else if s = instructionName Instruction.«open» then some Instruction.«open»
  else if s = instructionName Instruction.close then some Instruction.close
  else if s = instructionName Instruction.read then some Instruction.read
  else if s = instructionName Instruction.write then some Instruction.write
  else if s = instructionName Instruction.dump then some Instruction.dump
  else none

/-- Console messages printed by the open handler: the OK line, and the
open failure line carrying the path and the backend status string. -/
inductive Msg where
  | ok : Msg
  | openError : List Char → List Char → Msg
deriving DecidableEq

/-- OpenFunctor from the source, given the collaborator's result for the
DB open call.  leveldb DB Open stores a null pointer through the out
parameter on failure and the new handle on success; the out_ptr adaptor
resets the database smart pointer only when the stored pointer is
non-null, so on failure the previously held handle is kept.  On failure
the handler prints the error line and then, due to the missing early
return in the source, also prints OK. -/
def OpenFunctor (db : Option Nat) (args : List (List Char))
    (res : Except (List Char) Nat) : Option Nat × List Msg :=
  match res with
  | Except.ok h => (some h, [Msg.ok])
  | Except.error msg => (db, [Msg.openError (args.getD 0 []) msg, Msg.ok])

/-- Effect of an invoked handler on the session slot (the global database
pointer), plus the open-handler messages.  openFn is the external
collaborator oracle: the result of a DB open at a given path.  close and
exit reset the database; help, read, write and dump leave the session slot
unchanged (their console output is not needed by any claim and is
elided). -/
def ApplyImpl (openFn : List Char → Except (List Char) Nat) (db : Option Nat)
    (inst : Instruction) (args : List (List Char)) : Option Nat × List Msg :=
  match inst with
  | Instruction.«open» => OpenFunctor db args (openFn (args.getD 0 []))
  | Instruction.close => (none, [Msg.ok])
  | Instruction.exit => (none, [])
  | _ => (db, [])

/-- Observable outcome of one iteration of the main loop. -/
inductive Outcome where
  | emptyLineSkipped : Outcome
  | syntaxError : Nat → Outcome
  | noTokens : Outcome
  | unknownInstruction : List Char → Outcome
  | invalidStateError : Instruction → List Char → Outcome
  | sizeMismatchError : Instruction → Nat → Nat → Outcome
  | invoked : Instruction → List (List Char) → Outcome
deriving DecidableEq

/-- The requirement string passed to PrintInvalidStateError in the
source. -/
def openedDatabaseReq : List Char :=
  ['O', 'p', 'e', 'n', 'e', 'd', spChar, 'D', 'a', 't', 'a', 'b', 'a', 's', 'e']

/-- Dispatch of a tokenized line, mirroring the main loop body after
ParseInput: skip when the token list is empty, look up the first token,
check the open-database precondition, check arity only when the argument
hint string is non-empty, otherwise invoke the handler with the remaining
tokens. -/
def DispatchLine (openFn : List Char → Except (List Char) Nat) (db : Option Nat)
    (args : List (List Char)) : Option Nat × Outcome :=
  match args with
  | [] => (db, Outcome.noTokens)
  | tok :: rest =>
    match castInstruction tok with
    | none => (db, Outcome.unknownInstruction tok)
    | some inst =>
      if (GetInfo inst).require_db ∧ db = none then
        (db, Outcome.invalidStateError inst openedDatabaseReq)
      else if (GetInfo inst).args.data ≠ [] ∧ rest.length ≠ (GetInfo inst).args.size then
        (db, Outcome.sizeMismatchError inst (GetInfo inst).args.size rest.length)
      else ((ApplyImpl openFn db inst rest).1, Outcome.invoked inst rest)

/-- One full iteration of the main loop on a raw line: skip empty lines
before tokenization, discard the line on a tokenizer syntax error,
otherwise dispatch the token list. -/
def ProcessLine (openFn : List Char → Except (List Char) Nat) (db : Option Nat)
    (line : List Char) : Option Nat × Outcome :=
  if line = [] then (db, Outcome.emptyLineSkipped)
  else
    match ParseInput line with
    | ParseResult.unterminatedQuote col => (db, Outcome.syntaxError col)
    | ParseResult.ok args => DispatchLine openFn db args

/-- A collaborator oracle whose open calls always fail, used for concrete
instances. -/
def openFnNone : List Char → Except (List Char) Nat := fun _ => Except.error []

/-- Example line: the single word double-quote a b double-quote followed
by c, where the quoted run closes mid-word. -/
def lineQuoteMid : List Char := [dqChar, 'a', 'b', dqChar, 'c']

/-- Example line: a first word that is fully double-quoted and contains a
space, then the word c. -/
def lineFirstQuoted : List Char := [dqChar, 'a', spChar, 'b', dqChar, spChar, 'c']

/-- Example line: write, then double-quoted it-apostrophe-s, then ok. -/
def lineWriteIts : List Char :=
  ['w', 'r', 'i', 't', 'e', spChar, dqChar, 'i', 't', sqChar, 's', dqChar, spChar, 'o', 'k']

/-- Example line: a, two consecutive spaces, b. -/
def lineDoubleSpace : List Char := ['a', spChar, spChar, 'b']

/-- Example line: bad, space, an unterminated single quote, x. -/
def lineBadQuote : List Char := ['b', 'a', 'd', spChar, sqChar, 'x']

/-- Example line: open, space, a dot-slash-db path. -/
def lineOpenDb : List Char := ['o', 'p', 'e', 'n', spChar, '.', '/', 'd', 'b']

/-- Scan state of lineWriteIts just before the inner single quote at
index 9: inside the double-quoted run opened at index 6, with the word
write already pushed. -/
def c5State : ParseState :=
  { result := [['w', 'r', 'i', 't', 'e']]
    pos := 6
    skipping := true
    erease_quotes := false
    current := dqChar
    quote_start := 6 }

/-- Unfolding the scan loop one step while the index is in range. -/
theorem parseLoop_succ (input : List Char) (fuel i : Nat) (st : ParseState)
    (h : i < input.length) :
    ParseLoop input (fuel + 1) i st = ParseLoop input fuel (i + 1) (ParseStep input i st) := by
  simp [ParseLoop, h]

/-- The scan loop stops once the index reaches the end of the line. -/
theorem parseLoop_ge (input : List Char) (fuel i : Nat) (st : ParseState)
    (h : input.length ≤ i) : ParseLoop input fuel i st = st := by
  cases fuel with
  | zero => rfl
  | succ fuel => simp [ParseLoop, Nat.not_lt.2 h]

/-- One scan step only ever appends to the token list. -/
theorem parseStep_result (input : List Char) (i : Nat) (st : ParseState) :
    ∃ t, (ParseStep input i st).result = st.result ++ t := by
  unfold ParseStep
  split_ifs
  · exact ⟨[], by simp⟩
  · exact ⟨[], by simp⟩
  · exact ⟨[], by simp⟩
  · exact ⟨[], by simp⟩
  · exact ⟨[SliceInput input st.pos i st.erease_quotes], by simp⟩

/-- The scan loop only ever appends to the token list. -/
theorem parseLoop_result_append (input : List Char) :
    ∀ fuel i st, ∃ suf, (ParseLoop input fuel i st).result = st.result ++ suf := by
  intro fuel
  induction fuel with
  | zero => intro i st; exact ⟨[], by simp [ParseLoop]⟩
  | succ fuel ih =>
    intro i st
    by_cases h : i < input.length
    · obtain ⟨suf, hsuf⟩ := ih (i + 1) (ParseStep input i st)
      obtain ⟨t, ht⟩ := parseStep_result input i st
      refine ⟨t ++ suf, ?_⟩
      rw [parseLoop_succ input fuel i st h, hsuf, ht, List.append_assoc]
    · exact ⟨[], by simp [ParseLoop, h]⟩

/-- The quoted-run bookkeeping of the scan loop (skipping, current,
quote_start) evolves exactly as the standalone QuoteScan projection. -/
theorem parseLoop_quoteScan (input : List Char) :
    ∀ fuel i st,
      ((ParseLoop input fuel i st).skipping, (ParseLoop input fuel i st).current,
        (ParseLoop input fuel i st).quote_start)
        = QuoteScan input fuel i st.skipping st.current st.quote_start := by
  intro fuel
  induction fuel with
  | zero => intro i st; rfl
  | succ fuel ih =>
    intro i st
    by_cases hi : i < input.length
    · rw [parseLoop_succ input fuel i st hi, ih (i + 1) (ParseStep input i st)]
      by_cases hq : charAt input i = dqChar ∨ charAt input i = sqChar
      · by_cases hs : st.skipping = true
        · by_cases hc : st.current = charAt input i
          · simp [ParseStep, QuoteScan, hi, hq, hs, hc]
          · simp [ParseStep, QuoteScan, hi, hq, hs, hc]
        · simp [ParseStep, QuoteScan, hi, hq, hs]
      · by_cases hsp : ¬ (charAt input i = spChar) ∨ st.skipping = true
        · simp [ParseStep, QuoteScan, hi, hq, hsp]
        · simp [ParseStep, QuoteScan, hi, hq, hsp]
    · simp [ParseLoop, QuoteScan, hi]

/-- Balanced quotes, via the projection scan: the scan does not end inside
a quoted run. -/
theorem quoteScan_not_skipping (input : List Char)
    (h : UnterminatedQuoteCol input = none) :
    (QuoteScan input input.length 0 false (Char.ofNat 0) 0).1 = false := by
  cases hq : (QuoteScan input input.length 0 false (Char.ofNat 0) 0).1 with
  | false => rfl
  | true => simp [UnterminatedQuoteCol, hq] at h

/-- On a line with balanced quotes, ParseInput succeeds and returns the
pushed tokens followed by the trailing slice. -/
theorem parseInput_ok (input : List Char) (h : UnterminatedQuoteCol input = none) :
    ParseInput input = ParseResult.ok
      ((ParseLoop input input.length 0 initState).result
        ++ [SliceInput input (ParseLoop input input.length 0 initState).pos input.length
              (ParseLoop input input.length 0 initState).erease_quotes]) := by
  have hb := parseLoop_quoteScan input input.length 0 initState
  have hsk : (ParseLoop input input.length 0 initState).skipping = false := by
    have h1 := congrArg Prod.fst hb
    simpa [initState, quoteScan_not_skipping input h] using h1
  unfold ParseInput
  simp [hsk]

/-- The head of the final token list is the slice of the line from the
current word start to the first boundary reported by FirstBoundary, with
the erease flag FirstBoundary reports there. -/
theorem parseLoop_head (input : List Char) :
    ∀ fuel i st, input.length ≤ i + fuel → st.result = [] →
      ((ParseLoop input fuel i st).result
          ++ [SliceInput input (ParseLoop input fuel i st).pos input.length
                (ParseLoop input fuel i st).erease_quotes]).head?
        = some (SliceInput input st.pos
            (FirstBoundary input fuel i st.skipping st.erease_quotes st.current).1
            (FirstBoundary input fuel i st.skipping st.erease_quotes st.current).2) := by
  intro fuel
  induction fuel with
  | zero =>
    intro i st hle hres
    simp [ParseLoop, FirstBoundary, hres]
  | succ fuel ih =>
    intro i st hle hres
    by_cases hi : i < input.length
    · rw [parseLoop_succ input fuel i st hi]
      by_cases hq : charAt input i = dqChar ∨ charAt input i = sqChar
      · by_cases hs : st.skipping = true
        · by_cases hc : st.current = charAt input i
          · have hstep : ParseStep input i st
                = { st with erease_quotes := true, skipping := false } := by
              simp [ParseStep, hq, hs, hc]
            rw [hstep, ih (i + 1) _ (by omega) (by simpa using hres)]
            simp [FirstBoundary, hi, hq, hs, hc]
          · have hstep : ParseStep input i st = st := by
              simp [ParseStep, hq, hs, hc]
            rw [hstep, ih (i + 1) st (by omega) hres]
            simp [FirstBoundary, hi, hq, hs, hc]
        · have hstep : ParseStep input i st
              = { st with quote_start := i, current := charAt input i, skipping := true } := by
            simp [ParseStep, hq, hs]
          rw [hstep, ih (i + 1) _ (by omega) (by simpa using hres)]
          simp [FirstBoundary, hi, hq, hs]
      · by_cases hsp : ¬ (charAt input i = spChar) ∨ st.skipping = true
        · have hstep : ParseStep input i st = st := by
            simp [ParseStep, hq, hsp]
          rw [hstep, ih (i + 1) st (by omega) hres]
          simp [FirstBoundary, hi, hq, hsp]
        · have hstep : ParseStep input i st
              = { st with
                    result := st.result ++ [SliceInput input st.pos i st.erease_quotes]
                    pos := i + 1
                    erease_quotes := false } := by
            simp [ParseStep, hq, hsp]
          obtain ⟨suf, hsuf⟩ :=
            parseLoop_result_append input fuel (i + 1) (ParseStep input i st)
          rw [hstep] at hsuf
          rw [hstep]
          simp only [hres, List.nil_append] at hsuf ⊢
          rw [hsuf]  -- result of the remaining loop is the pushed token and a suffix
          simp [FirstBoundary, hi, hq, hsp]
    · simp [ParseLoop, FirstBoundary, hi, hres]

/-- When the last character of the line is a space and the scan ends
outside a quoted run, the scan ends with pos at the end of the line and
the erease flag cleared (so the trailing token is empty). -/
theorem parseLoop_trailing (input : List Char) :
    ∀ fuel i st, input.length ≤ i + fuel → i < input.length →
      charAt input (input.length - 1) = spChar →
      (ParseLoop input fuel i st).skipping = false →
      (ParseLoop input fuel i st).pos = input.length ∧
        (ParseLoop input fuel i st).erease_quotes = false := by
  intro fuel
  induction fuel with
  | zero => intro i st hle hi; omega
  | succ fuel ih =>
    intro i st hle hi hsp hskip
    rw [parseLoop_succ input fuel i st hi] at hskip ⊢
    by_cases hlast : i = input.length - 1
    · have hc : charAt input i = spChar := by rw [hlast]; exact hsp
      have hnq : ¬ (spChar = dqChar ∨ spChar = sqChar) := by decide
      by_cases hs : st.skipping = true
      · have hstep : ParseStep input i st = st := by simp [ParseStep, hc, hnq, hs]
        rw [hstep, parseLoop_ge input fuel (i + 1) st (by omega)] at hskip
        rw [hs] at hskip
        cases hskip
      · have hstep : ParseStep input i st
            = { st with
                  result := st.result ++ [SliceInput input st.pos i st.erease_quotes]
                  pos := i + 1
                  erease_quotes := false } := by
          simp [ParseStep, hc, hnq, hs]
        rw [hstep, parseLoop_ge input fuel (i + 1) _ (by omega)]
        constructor
        · simp; omega
        · simp
    · exact ih (i + 1) (ParseStep input i st) (by omega) (by omega) hsp hskip

/-- Claim C1, amended.  Token stripping in the tokenizer: (1) the
erease_quotes flag becomes set exactly at a matching-pair close of a
quoted run, is cleared at each unquoted-space boundary, and is otherwise
unchanged; (2) a token sliced with the flag set is the word span with its
first and its last character removed, and its length is the span length
reduced by exactly 2; (3) at an unquoted-space boundary the token pushed
for the word is the slice from the word start to the boundary under the
current flag.  (The claim as frozen says the outermost matching quote
characters are removed; the code removes the first and last characters of
the word span, which coincide with the quote pair only when the word
begins and ends with it — see the counterexample.) -/
theorem c1_slice_strips_first_and_last :
    (∀ input i st, (ParseStep input i st).erease_quotes =
        (if (charAt input i = dqChar ∨ charAt input i = sqChar)
            ∧ st.skipping = true ∧ st.current = charAt input i then true
         else if charAt input i = spChar ∧ ¬ st.skipping = true then false
         else st.erease_quotes))
    ∧ (∀ input pos i, pos + 2 ≤ i → i ≤ input.length →
        SliceInput input pos i true = ((SliceInput input pos i false).drop 1).dropLast
          ∧ (SliceInput input pos i true).length = i - pos - 2)
    ∧ (∀ input i st, charAt input i = spChar → st.skipping = false →
        (ParseStep input i st).result
          = st.result ++ [SliceInput input st.pos i st.erease_quotes]) := by
  refine ⟨?_, ?_, ?_⟩
  · intro input i st
    by_cases hq : charAt input i = dqChar ∨ charAt input i = sqChar
    · have hnsp : ¬ charAt input i = spChar := by
        rcases hq with h | h <;> rw [h] <;> decide
      by_cases hs : st.skipping = true
      · by_cases hc : st.current = charAt input i
        · simp [ParseStep, hq, hs, hc, hnsp]
        · simp [ParseStep, hq, hs, hc, hnsp]
      · simp [ParseStep, hq, hs, hnsp]
    · by_cases hsp2 : charAt input i = spChar
      · by_cases hs : st.skipping = true
        · simp [ParseStep, hq, hs]
        · have hnq : ¬ (spChar = dqChar ∨ spChar = sqChar) := by decide
          simp [ParseStep, hsp2, hnq, hs]
      · simp [ParseStep, hq, hsp2]
  · intro input pos i h2 hlen
    have e1 : ((input.drop pos).take (i - pos)).drop 1
        = (input.drop (pos + 1)).take (i - pos - 1) := by
      rw [List.drop_take, List.drop_drop]
    have elen : ((input.drop (pos + 1)).take (i - pos - 1)).length = i - pos - 1 := by
      rw [List.length_take, List.length_drop]
      omega
    have e2 : ((input.drop (pos + 1)).take (i - pos - 1)).dropLast
        = (input.drop (pos + 1)).take (i - pos - 2) := by
      rw [List.dropLast_eq_take, elen, List.take_take]
      congr 1
      omega
    have ht : SliceInput input pos i true = (input.drop (pos + 1)).take (i - pos - 2) := by
      simp [SliceInput]
    have hf : SliceInput input pos i false = (input.drop pos).take (i - pos) := by
      simp [SliceInput]
    constructor
    · rw [ht, hf, e1, e2]
    · rw [ht, List.length_take, List.length_drop]
      omega
  · intro input i st hsp hs
    have hnq : ¬ (spChar = dqChar ∨ spChar = sqChar) := by decide
    simp [ParseStep, hsp, hnq, hs]

/-- Claim C1, counterexample to the frozen wording.  On the line
double-quote a b double-quote c, a quoted run closes with a matching pair
during the single word, but the sliced token is a b double-quote: the
characters removed are the opening quote and the letter c, so a quote
character remains in the token, while stripping the outermost matching
quote pair would give a b c. -/
theorem c1_counterexample :
    ParseInput lineQuoteMid = ParseResult.ok [['a', 'b', dqChar]]
      ∧ ['a', 'b', dqChar] ≠ ['a', 'b', 'c']
      ∧ dqChar ∈ ['a', 'b', dqChar] := by decide

/-- Claim C1, witness: the amended slice facts evaluated on the
counterexample word (span 0 to 5 of the line). -/
theorem c1_witness :
    SliceInput lineQuoteMid 0 5 true
        = ((SliceInput lineQuoteMid 0 5 false).drop 1).dropLast
      ∧ (SliceInput lineQuoteMid 0 5 true).length = 5 - 0 - 2 :=
  c1_slice_strips_first_and_last.2.1 lineQuoteMid 0 5 (by decide) (by decide)

/-- Claim C2, counterexample to the frozen wording.  Dispatching help with
one extra argument: the declared arity is 0 and the actual count is 1, yet
no arity-mismatch error is reported and the handler is invoked, because
the source checks arity only when the argument hint string is non-empty
and help's hint is empty. -/
theorem c2_counterexample :
    DispatchLine openFnNone none [['h', 'e', 'l', 'p'], ['x']]
      = (none, Outcome.invoked Instruction.help [['x']]) := by decide

/-- Claim C2, amended.  Arity is enforced only for commands whose argument
hint string is non-empty (open, read, write): for those, a count mismatch
reports the expected and actual counts and the handler is not invoked.
Commands with an empty hint (help, exit, close, dump) skip the arity check
entirely and their handlers are invoked with whatever arguments remain.
Both parts assume the open-database precondition gate passed. -/
theorem c2_arity_only_with_hint :
    (∀ openFn db name rest inst, castInstruction name = some inst →
        ¬ ((GetInfo inst).require_db ∧ db = none) →
        (GetInfo inst).args.data ≠ [] → rest.length ≠ (GetInfo inst).args.size →
        DispatchLine openFn db (name :: rest)
          = (db, Outcome.sizeMismatchError inst (GetInfo inst).args.size rest.length))
    ∧ (∀ openFn db name rest inst, castInstruction name = some inst →
        ¬ ((GetInfo inst).require_db ∧ db = none) →
        (GetInfo inst).args.data = [] →
        DispatchLine openFn db (name :: rest)
          = ((ApplyImpl openFn db inst rest).1, Outcome.invoked inst rest)) := by
  constructor
  · intro openFn db name rest inst hcast hpre hdata hlen
    simp [DispatchLine, hcast, hpre, hdata, hlen]
  · intro openFn db name rest inst hcast hpre hdata
    simp [DispatchLine, hcast, hpre, hdata]

/-- Claim C2, witness: write with a single argument reports expected 2 got
1, via the amended theorem. -/
theorem c2_witness :
    DispatchLine openFnNone (some 0) [['w', 'r', 'i', 't', 'e'], ['x']]
      = (some 0, Outcome.sizeMismatchError Instruction.write 2 1) := by
  have h := c2_arity_only_with_hint.1 openFnNone (some 0) ['w', 'r', 'i', 't', 'e'] [['x']]
      Instruction.write (by decide) (by decide) (by decide) (by decide)
  simpa [GetInfo] using h

/-- Claim C3: when the collaborator reports failure on an open call, the
handler reports the collaborator's failure message (followed, due to the
missing early return in the source, by an OK line), and the session slot
is returned unchanged — in particular a previously open handle stays
bound.  DB Open stores a null pointer on failure and the out_ptr adaptor
resets the database pointer only when the stored pointer is non-null. -/
theorem c3_open_failure_keeps_session :
    ∀ db args msg, OpenFunctor db args (Except.error msg)
        = (db, [Msg.openError (args.getD 0 []) msg, Msg.ok])
      ∧ (OpenFunctor db args (Except.error msg)).1 = db := by
  intro db args msg
  exact ⟨rfl, rfl⟩

/-- Claim C6: a command whose metadata requires an open database, when
dispatched with the session closed, reports the precondition failure
naming Opened Database and stops — for any remaining argument list, so the
gate fires before the arity check and the handler is never invoked; the
session stays closed.  The commands requiring an open database are exactly
close, read, write and dump. -/
theorem c6_precondition_gate :
    (∀ openFn name rest inst, castInstruction name = some inst →
        (GetInfo inst).require_db = true →
        DispatchLine openFn none (name :: rest)
          = (none, Outcome.invalidStateError inst openedDatabaseReq))
    ∧ (∀ inst, (GetInfo inst).require_db = true ↔
        (inst = Instruction.close ∨ inst = Instruction.read ∨ inst = Instruction.write
          ∨ inst = Instruction.dump)) := by
  constructor
  · intro openFn name rest inst hcast hreq
    simp [DispatchLine, hcast, hreq]
  · intro inst
    cases inst <;> simp [GetInfo]

/-- Claim C6, witness: read dispatched before any open, with a wrong
argument count on top, still reports the precondition failure. -/
theorem c6_witness :
    DispatchLine openFnNone none [['r', 'e', 'a', 'd'], ['k'], ['v']]
      = (none, Outcome.invalidStateError Instruction.read openedDatabaseReq) :=
  c6_precondition_gate.1 openFnNone ['r', 'e', 'a', 'd'] [['k'], ['v']] Instruction.read
    (by decide) (by decide)

/-- Claim C8, counterexample to the frozen wording.  Dispatching close
with the session already closed does report an error: the precondition
failure close requires Opened Database, because close's metadata has
require_db set. -/
theorem c8_counterexample :
    DispatchLine openFnNone none [['c', 'l', 'o', 's', 'e']]
      = (none, Outcome.invalidStateError Instruction.close openedDatabaseReq) := by decide

/-- Claim C8, amended.  close dispatched while the session is closed
reports the precondition failure naming Opened Database (for any trailing
arguments); the handler is not invoked, the session stays closed, and the
loop continues (dispatch is total, no crash). -/
theorem c8_close_when_closed_reports_precondition :
    ∀ openFn rest, DispatchLine openFn none (['c', 'l', 'o', 's', 'e'] :: rest)
      = (none, Outcome.invalidStateError Instruction.close openedDatabaseReq) := by
  intro openFn rest
  have hcast : castInstruction ['c', 'l', 'o', 's', 'e'] = some Instruction.close := by decide
  simp [DispatchLine, hcast, GetInfo]

/-- No dispatch outcome is the empty-line skip: that marker is produced
only before tokenization. -/
theorem dispatchLine_not_empty (openFn : List Char → Except (List Char) Nat)
    (db : Option Nat) (args : List (List Char)) :
    (DispatchLine openFn db args).2 ≠ Outcome.emptyLineSkipped := by
  match args with
  | [] => simp [DispatchLine]
  | tok :: rest =>
    cases hcast : castInstruction tok with
    | none => simp [DispatchLine, hcast]
    | some inst =>
      by_cases h1 : (GetInfo inst).require_db ∧ db = none
      · simp [DispatchLine, hcast, h1]
      · by_cases h2 : (GetInfo inst).args.data ≠ [] ∧ rest.length ≠ (GetInfo inst).args.size
        · simp [DispatchLine, hcast, h1, h2]
        · simp [DispatchLine, hcast, h1, h2]

/-- Claim C10: the literally empty line is the only line skipped silently
before tokenization; a non-empty line whose first token is empty (for
example a line starting with a space) is reported as an unknown
instruction with the empty token name, with no other action (the session
slot is unchanged). -/
theorem c10_empty_first_token_unknown :
    (∀ openFn db, ProcessLine openFn db [] = (db, Outcome.emptyLineSkipped))
    ∧ (∀ openFn db line rest, line ≠ [] → ParseInput line = ParseResult.ok ([] :: rest) →
        ProcessLine openFn db line = (db, Outcome.unknownInstruction []))
    ∧ (∀ openFn db line, line ≠ [] →
        (ProcessLine openFn db line).2 ≠ Outcome.emptyLineSkipped) := by
  refine ⟨?_, ?_, ?_⟩
  · intro openFn db
    simp [ProcessLine]
  · intro openFn db line rest hne hok
    have hcast : castInstruction [] = (none : Option Instruction) := by decide
    simp [ProcessLine, hne, hok, DispatchLine, hcast]
  · intro openFn db line hne
    unfold ProcessLine
    rw [if_neg hne]
    cases hp : ParseInput line with
    | unterminatedQuote col => simp
    | ok args => exact dispatchLine_not_empty openFn db args

/-- Claim C10, witness: a line consisting of a single space tokenizes to
two empty tokens and is reported as an unknown instruction with the empty
name. -/
theorem c10_witness :
    ProcessLine openFnNone none [spChar] = (none, Outcome.unknownInstruction []) :=
  c10_empty_first_token_unknown.2.1 openFnNone none [spChar] [[]] (by decide) (by decide)

/-- Claim C4, counterexample to the frozen wording.  On the line
double-quote a space b double-quote space c, the first unquoted space is
at column 5, so the substring of the line up to it still carries the
quotes, while the first token produced is the quote-stripped a space b. -/
theorem c4_counterexample :
    ParseInput lineFirstQuoted = ParseResult.ok [['a', spChar, 'b'], ['c']]
      ∧ (FirstBoundary lineFirstQuoted lineFirstQuoted.length 0 false false (Char.ofNat 0)).1 = 5
      ∧ ['a', spChar, 'b'] ≠ lineFirstQuoted.take 5 := by decide

/-- Claim C4, amended.  For every non-empty input line with balanced
quotes, tokenize succeeds and returns a non-empty sequence whose first
element is the slice of the line from position 0 to the first unquoted
space (or the whole line if there is none) — with the first and last
characters of that span removed when a quoted run closed with a matching
pair inside it, per the FirstBoundary flag. -/
theorem c4_first_token (input : List Char) (_hne : input ≠ [])
    (hbal : UnterminatedQuoteCol input = none) :
    ∃ toks, ParseInput input = ParseResult.ok toks ∧ 1 ≤ toks.length
      ∧ toks.head? = some (SliceInput input 0
          (FirstBoundary input input.length 0 false false (Char.ofNat 0)).1
          (FirstBoundary input input.length 0 false false (Char.ofNat 0)).2) := by
  have hok := parseInput_ok input hbal
  refine ⟨_, hok, ?_, ?_⟩
  · simp
  · have hh := parseLoop_head input input.length 0 initState (by omega) rfl
    simpa [initState] using hh

/-- Claim C4, witness: the line open space dot slash d b, which has no
quotes, tokenizes with first element the slice up to the space at
column 4. -/
theorem c4_witness :
    ∃ toks, ParseInput lineOpenDb = ParseResult.ok toks ∧ 1 ≤ toks.length
      ∧ toks.head? = some (SliceInput lineOpenDb 0
          (FirstBoundary lineOpenDb lineOpenDb.length 0 false false (Char.ofNat 0)).1
          (FirstBoundary lineOpenDb lineOpenDb.length 0 false false (Char.ofNat 0)).2) :=
  c4_first_token lineOpenDb (by decide) (by decide)

/-- Claim C5: while the scan is inside a quoted run, the other quote
character (the one that did not open the run) is treated as an ordinary
character — the scan step leaves the whole state unchanged, so the run is
not closed; and tokenizing the line write space double-quote i t
single-quote s double-quote space o k yields the three tokens write,
it-apostrophe-s and ok, with the outer double quotes stripped and the
inner single quote preserved. -/
theorem c5_other_quote_is_ordinary :
    (∀ input i st, st.skipping = true →
        (charAt input i = dqChar ∨ charAt input i = sqChar) →
        charAt input i ≠ st.current →
        ParseStep input i st = st)
    ∧ ParseInput lineWriteIts
        = ParseResult.ok [['w', 'r', 'i', 't', 'e'], ['i', 't', sqChar, 's'], ['o', 'k']] := by
  constructor
  · intro input i st hs hq hne
    have hc : ¬ st.current = charAt input i := fun h => hne h.symm
    simp [ParseStep, hq, hs, hc]
  · decide

/-- Claim C5, witness: the inner single quote of lineWriteIts at index 9,
met inside the double-quoted run, leaves the scan state unchanged. -/
theorem c5_witness : ParseStep lineWriteIts 9 c5State = c5State :=
  c5_other_quote_is_ordinary.1 lineWriteIts 9 c5State (by decide) (by decide) (by decide)

/-- Claim C7: when the scan of a line ends inside a quoted run, tokenize
fails with the unterminated-quote syntax error carrying the 0-based column
where the most recently opened, unmatched quote began; no token sequence
is produced; and the main loop discards the line, leaving the session slot
unchanged. -/
theorem c7_unterminated_quote :
    ∀ input col db openFn, UnterminatedQuoteCol input = some col →
      ParseInput input = ParseResult.unterminatedQuote col
        ∧ (∀ toks, ParseInput input ≠ ParseResult.ok toks)
        ∧ ProcessLine openFn db input = (db, Outcome.syntaxError col) := by
  intro input col db openFn hcol
  have hb := parseLoop_quoteScan input input.length 0 initState
  cases hq1 : (QuoteScan input input.length 0 false (Char.ofNat 0) 0).1 with
  | false => simp [UnterminatedQuoteCol, hq1] at hcol
  | true =>
    have hcol2 : (QuoteScan input input.length 0 false (Char.ofNat 0) 0).2.2 = col := by
      simpa [UnterminatedQuoteCol, hq1] using hcol
    have hfs : (ParseLoop input input.length 0 initState).skipping = true := by
      have h1 : (ParseLoop input input.length 0 initState).skipping
          = (QuoteScan input input.length 0 false (Char.ofNat 0) 0).1 :=
        congrArg Prod.fst hb
      rw [h1, hq1]
    have hfq : (ParseLoop input input.length 0 initState).quote_start = col := by
      have h2 : (ParseLoop input input.length 0 initState).quote_start
          = (QuoteScan input input.length 0 false (Char.ofNat 0) 0).2.2 :=
        congrArg (fun p => p.2.2) hb
      rw [h2, hcol2]
    have hpi : ParseInput input = ParseResult.unterminatedQuote col := by
      unfold ParseInput
      simp [hfs, hfq]
    have hne : input ≠ [] := by
      intro h
      rw [h] at hq1
      simp [QuoteScan] at hq1
    refine ⟨hpi, ?_, ?_⟩
    · intro toks
      rw [hpi]
      simp
    · unfold ProcessLine
      rw [if_neg hne, hpi]

/-- Claim C7, witness: the line bad space single-quote x fails with the
unterminated quote opened at column 4, and the loop keeps the closed
session. -/
theorem c7_witness :
    ParseInput lineBadQuote = ParseResult.unterminatedQuote 4
      ∧ (∀ toks, ParseInput lineBadQuote ≠ ParseResult.ok toks)
      ∧ ProcessLine openFnNone none lineBadQuote = (none, Outcome.syntaxError 4) :=
  c7_unterminated_quote lineBadQuote 4 none openFnNone (by decide)

/-- Claim C9: every unquoted-space boundary finalizes the span since the
previous boundary, including zero-length spans — a space met right at the
current word start pushes an empty token; a line with balanced quotes that
ends in a space gets a trailing empty token; and the line a space space b
tokenizes to a, an empty token, and b. -/
theorem c9_empty_tokens :
    (∀ input i st, charAt input i = spChar → st.skipping = false →
        st.erease_quotes = false → st.pos = i →
        (ParseStep input i st).result = st.result ++ [[]])
    ∧ (∀ input, UnterminatedQuoteCol input = none → input ≠ [] →
        charAt input (input.length - 1) = spChar →
        ∃ toks, ParseInput input = ParseResult.ok toks ∧ toks.getLast? = some [])
    ∧ ParseInput lineDoubleSpace = ParseResult.ok [['a'], [], ['b']] := by
  refine ⟨?_, ?_, ?_⟩
  · intro input i st hsp hs he hpos
    have hnq : ¬ (spChar = dqChar ∨ spChar = sqChar) := by decide
    simp [ParseStep, hsp, hnq, hs, hpos, he, SliceInput]
  · intro input hbal hne hlast
    have hok := parseInput_ok input hbal
    have hb := parseLoop_quoteScan input input.length 0 initState
    have hsk : (ParseLoop input input.length 0 initState).skipping = false := by
      have h1 := congrArg Prod.fst hb
      simpa [initState, quoteScan_not_skipping input hbal] using h1
    have hlen0 : 0 < input.length := by
      cases input with
      | nil => exact absurd rfl hne
      | cons a l => simp
    have ht := parseLoop_trailing input input.length 0 initState (by omega) hlen0 hlast hsk
    refine ⟨_, hok, ?_⟩
    rw [ht.1, ht.2, List.getLast?_concat]
    simp [SliceInput]
  · decide

/-- Claim C9, witness: the line a space space, which ends in a space,
tokenizes with a trailing empty token. -/
theorem c9_witness :
    ∃ toks, ParseInput ['a', spChar, spChar] = ParseResult.ok toks
      ∧ toks.getLast? = some [] :=
  c9_empty_tokens.2.1 ['a', spChar, spChar] (by decide) (by decide) (by decide)
